import Mathlib

/-!
Formal model of the GestureBridge client (`App.tsx`): the inbound playback
scheduler, the interruption (barge-in) protocol, the transcript assembler,
the capture/send path and the connection lifecycle, together with proofs of
the behavioural properties stated in the specification.

Time conventions follow the source: the playback clock (`audioCtx.currentTime`,
`nextStartTimeRef`, buffer durations) is in seconds, modelled as `ℚ`; wall-clock
timestamps (`Date.now()`, `Date.getTime()`) are in milliseconds, modelled as `ℤ`.
`AudioBufferSourceNode` handles and `setInterval` handles are modelled as `ℕ` ids.
-/

namespace GestureBridge

/-- Connection lifecycle states (`ConnectionStatus` from `types.ts`, as used by
`App.tsx`). -/
inductive ConnectionStatus where
  | disconnected
  | connecting
  | connected
  | error
deriving DecidableEq, Repr

/-- Playback clock state of the inbound scheduler: `nextStartTimeRef.current`
and the set `sourcesRef.current` of active `AudioBufferSourceNode` handles. -/
structure PlaybackClock where
  nextStartTime : ℚ
  active : Finset ℕ
deriving DecidableEq

/-- One scheduling step of the inbound playback scheduler
(`App.tsx` lines 121-137): with `now = audioCtx.currentTime`,
if `nextStartTime < now || nextStartTime > now + 0.5` reset
`nextStartTime = now`; create a source node, `start(nextStartTime)`,
advance `nextStartTime += audioBuffer.duration`, and add the node to the
active set.  Returns the updated clock together with the start time the
unit was scheduled at. -/
def scheduleAudio (clock : PlaybackClock) (now dur : ℚ) (node : ℕ) :
    PlaybackClock × ℚ :=
  let nst := if clock.nextStartTime < now ∨ clock.nextStartTime > now + 1/2
    then now else clock.nextStartTime
  (⟨nst + dur, insert node clock.active⟩, nst)

/-- The `sourceNode.onended` callback (`App.tsx` lines 136-138): natural
completion removes the handle from the active set and does nothing else. -/
def handleSourceEnded (clock : PlaybackClock) (node : ℕ) : PlaybackClock :=
  ⟨clock.nextStartTime, clock.active.erase node⟩

/-- The interruption block of `onmessage` (`App.tsx` lines 144-151): stop every
node in `sourcesRef.current`, clear the set, and reset `nextStartTime` to 0.
Returns the new clock together with the set of handles that were stopped. -/
def handleInterruption (clock : PlaybackClock) : PlaybackClock × Finset ℕ :=
  (⟨0, ∅⟩, clock.active)

/-- Scheduler-side state threaded through inbound audio handling: the session
status, the playback clock, a count of errors written by `console.error`, and
the allocator for fresh source-node handles. -/
structure SchedulerState where
  status : ConnectionStatus
  clock : PlaybackClock
  errorsLogged : ℕ
  nextNode : ℕ
deriving DecidableEq

/-- The inbound-audio block of `onmessage` (`App.tsx` lines 112-141).  An
inbound payload is modelled by its decode result: `none` when
`base64ToBytes`/`pcmToAudioBuffer` throws on malformed data, `some dur` for a
buffer of duration `dur`.  On failure the `catch` only logs the error; on
success the unit is scheduled on the clock with a fresh node handle. -/
def handleAudioPayload (st : SchedulerState) (now : ℚ) (payload : Option ℚ) :
    SchedulerState :=
  match payload with
  | none => { st with errorsLogged := st.errorsLogged + 1 }
  | some dur =>
      { st with
          clock := (scheduleAudio st.clock now dur st.nextNode).1
          nextNode := st.nextNode + 1 }

/-- Folding `handleAudioPayload` over a sequence of inbound audio payloads,
each tagged with the clock reading `now` at its arrival. -/
def processInbound (st : SchedulerState) : List (ℚ × Option ℚ) → SchedulerState
  | [] => st
  | (now, payload) :: rest => processInbound (handleAudioPayload st now payload) rest

/-- The trace of `(scheduledStart, duration)` pairs produced by scheduling a
sequence of successfully decoded units (each tagged with the clock reading
`now` at its arrival) on a given starting clock, with no interruption in
between. -/
def runSchedule (clock : PlaybackClock) : List (ℚ × ℚ) → List (ℚ × ℚ)
  | [] => []
  | (now, dur) :: rest =>
      ((scheduleAudio clock now dur 0).2, dur) ::
        runSchedule (scheduleAudio clock now dur 0).1 rest

/-- `true` when, along the given arrival sequence, the excessive look-ahead
branch of the reset (`nextStartTime > now + 0.5`) never fires. -/
def driftResetFree (clock : PlaybackClock) : List (ℚ × ℚ) → Bool
  | [] => true
  | (now, dur) :: rest =>
      if clock.nextStartTime ≤ now + 1/2 then
        driftResetFree (scheduleAudio clock now dur 0).1 rest
      else false

/-- Transcript roles (`Message.role` from `types.ts`). -/
inductive Role where
  | user
  | model
deriving DecidableEq, Repr

/-- A transcript message (`Message` from `types.ts`).  The source stores
`id: Date.now().toString()` and `timestamp: new Date()`; ids are modelled by
the numeric `Date.now()` value (`toString` is injective on integers, so
distinctness of ids coincides) and timestamps by epoch milliseconds. -/
structure Message where
  id : ℤ
  role : Role
  text : String
  timestamp : ℤ
deriving DecidableEq

/-- The transcription block of `onmessage` (`App.tsx` lines 88-109): if a last
message exists, has role `model`, and its timestamp is within 2000 ms of the
current time, the delta text is appended to that message in place (id and
timestamp kept); otherwise a new model message is appended whose id and
timestamp are the current time. -/
def handleTranscription (nowMs : ℤ) (text : String) (prev : List Message) :
    List Message :=
  match prev.getLast? with
  | some lastMsg =>
      if lastMsg.role = Role.model ∧ nowMs - lastMsg.timestamp < 2000 then
        prev.dropLast ++ [{ lastMsg with text := lastMsg.text ++ text }]
      else
        prev ++ [⟨nowMs, Role.model, text, nowMs⟩]
  | none => prev ++ [⟨nowMs, Role.model, text, nowMs⟩]

/-- Auxiliary: the status, clock and node allocator computed by
`processInbound` do not depend on the error counter, and respect equality of
those three fields. -/
lemma processInbound_congr (units : List (ℚ × Option ℚ)) :
    ∀ st₁ st₂ : SchedulerState,
      st₁.status = st₂.status → st₁.clock = st₂.clock → st₁.nextNode = st₂.nextNode →
      (processInbound st₁ units).status = (processInbound st₂ units).status ∧
      (processInbound st₁ units).clock = (processInbound st₂ units).clock ∧
      (processInbound st₁ units).nextNode = (processInbound st₂ units).nextNode := by
  induction units with
  | nil =>
      intro st₁ st₂ h1 h2 h3
      exact ⟨h1, h2, h3⟩
  | cons u rest ih =>
      intro st₁ st₂ h1 h2 h3
      obtain ⟨now, p⟩ := u
      simp only [processInbound]
      cases p with
      | none =>
          exact ih _ _ (by simp [handleAudioPayload, h1])
            (by simp [handleAudioPayload, h2]) (by simp [handleAudioPayload, h3])
      | some dur =>
          exact ih _ _ (by simp [handleAudioPayload, h1])
            (by simp [handleAudioPayload, h2, h3]) (by simp [handleAudioPayload, h3])

/-- Auxiliary: with all durations nonnegative and no look-ahead drift reset,
every scheduled start is at least the starting `nextStartTime`, and
consecutive units satisfy `start + duration ≤ next start`. -/
lemma runSchedule_monotone (units : List (ℚ × ℚ)) :
    ∀ clock : PlaybackClock,
      (∀ u ∈ units, 0 ≤ u.2) → driftResetFree clock units = true →
      (∀ v ∈ runSchedule clock units, clock.nextStartTime ≤ v.1) ∧
      List.Pairwise (fun a b : ℚ × ℚ => a.1 + a.2 ≤ b.1 ∧ a.1 ≤ b.1)
        (runSchedule clock units) := by
  induction units with
  | nil =>
      intro clock _ _
      exact ⟨by simp [runSchedule], by simp [runSchedule]⟩
  | cons u rest ih =>
      intro clock hdur hfree
      obtain ⟨now, dur⟩ := u
      have hdur0 : 0 ≤ dur := hdur (now, dur) (List.mem_cons_self _ _)
      have hdurR : ∀ v ∈ rest, 0 ≤ v.2 := fun v hv => hdur v (List.mem_cons_of_mem _ hv)
      simp only [driftResetFree] at hfree
      by_cases hla : clock.nextStartTime ≤ now + 1/2
      · rw [if_pos hla] at hfree
        obtain ⟨ihlb, ihpw⟩ := ih _ hdurR hfree
        have hs : clock.nextStartTime ≤ (scheduleAudio clock now dur 0).2 := by
          simp only [scheduleAudio]
          split_ifs with hcond
          · rcases hcond with hlt | hgt
            · exact le_of_lt hlt
            · exact absurd hgt (not_lt.mpr hla)
          · exact le_refl _
        have hnext : (scheduleAudio clock now dur 0).1.nextStartTime
            = (scheduleAudio clock now dur 0).2 + dur := rfl
        constructor
        · intro v hv
          rcases List.mem_cons.mp hv with hv | hv
          · rw [hv]; exact hs
          · have := ihlb v hv
            rw [hnext] at this
            calc clock.nextStartTime ≤ (scheduleAudio clock now dur 0).2 := hs
              _ ≤ (scheduleAudio clock now dur 0).2 + dur := le_add_of_nonneg_right hdur0
              _ ≤ v.1 := this
        · rw [runSchedule]
          refine List.Pairwise.cons (fun v hv => ?_) ihpw
          have := ihlb v hv
          rw [hnext] at this
          exact ⟨this, le_trans (le_add_of_nonneg_right hdur0) this⟩
      · rw [if_neg hla] at hfree
        exact absurd hfree (by simp)

/-- Claim C1: for every inbound decoded audio unit the scheduler reads the playback
clock's current time `now`; when `nextStartTime < now` or
`nextStartTime > now + 0.5` the unit is scheduled at `now` (the reset), and
otherwise at the existing `nextStartTime`; in either case `nextStartTime`
afterwards equals the scheduled start plus exactly the unit's duration, and
the unit's handle joins the active set. -/
theorem scheduleAudio_spec (clock : PlaybackClock) (now dur : ℚ) (node : ℕ) :
    ((clock.nextStartTime < now ∨ clock.nextStartTime > now + 1/2) →
      (scheduleAudio clock now dur node).2 = now) ∧
    ((now ≤ clock.nextStartTime ∧ clock.nextStartTime ≤ now + 1/2) →
      (scheduleAudio clock now dur node).2 = clock.nextStartTime) ∧
    (scheduleAudio clock now dur node).1.nextStartTime =
      (scheduleAudio clock now dur node).2 + dur ∧
    (scheduleAudio clock now dur node).1.active = insert node clock.active := by
  refine ⟨fun h => ?_, fun h => ?_, rfl, rfl⟩
  · simp only [scheduleAudio, if_pos h]
  · have hn : ¬ (clock.nextStartTime < now ∨ clock.nextStartTime > now + 1/2) := by
      push_neg
      exact ⟨h.1, h.2⟩
    simp only [scheduleAudio, if_neg hn]

/-- Witness for `scheduleAudio_spec`: a unit arriving at clock time 3/4 with
`nextStartTime = 1` (within the half-second look-ahead) keeps its start at 1. -/
theorem scheduleAudio_spec_witness :
    (scheduleAudio ⟨1, ∅⟩ (3/4) (1/10) 5).2 = (1 : ℚ) :=
  (scheduleAudio_spec ⟨1, ∅⟩ (3/4) (1/10) 5).2.1 (by norm_num)

/-- Claim C2 as stated is false on the code: with no interruption in between, a
look-ahead drift reset (`nextStartTime > now + 0.5`) produces a third unit
whose start (1/50) precedes the second unit's start (2/5), so the starts are
not non-decreasing and the intervals `[2/5, 4/5)` and `[1/50, 21/50)` overlap. -/
theorem playback_overlap_counterexample :
    (runSchedule ⟨0, ∅⟩ [(0, 2/5), (1/100, 2/5), (1/50, 2/5)]).map Prod.fst
        = [0, 2/5, 1/50] ∧
    ¬ List.Pairwise
        (fun a b : ℚ × ℚ =>
          Disjoint (Set.Ico a.1 (a.1 + a.2)) (Set.Ico b.1 (b.1 + b.2)) ∧ a.1 ≤ b.1)
        (runSchedule ⟨0, ∅⟩ [(0, 2/5), (1/100, 2/5), (1/50, 2/5)]) := by
  have hru : runSchedule ⟨0, ∅⟩ [(0, 2/5), (1/100, 2/5), (1/50, 2/5)]
      = [(0, 2/5), (2/5, 2/5), (1/50, 2/5)] := by
    norm_num [runSchedule, scheduleAudio]
  constructor
  · rw [hru]; simp
  · rw [hru]
    intro hpw
    have h2 := (List.pairwise_cons.mp (List.pairwise_cons.mp hpw).2).1
      (1/50, 2/5) (by simp)
    have : ¬ ((2 : ℚ)/5 ≤ 1/50) := by norm_num
    exact this h2.2

/-- Claim C2 (amended): for every sequence of PlaybackUnits scheduled with no
interruption in between and along which the excessive look-ahead drift reset
(`nextStartTime > now + 0.5`) never fires, the intervals
`[scheduledStart, scheduledStart + duration)` are pairwise disjoint and the
`scheduledStart` values are non-decreasing in arrival order. -/
theorem playback_no_overlap (clock : PlaybackClock) (units : List (ℚ × ℚ))
    (hdur : ∀ u ∈ units, 0 ≤ u.2)
    (hfree : driftResetFree clock units = true) :
    List.Pairwise
      (fun a b : ℚ × ℚ =>
        Disjoint (Set.Ico a.1 (a.1 + a.2)) (Set.Ico b.1 (b.1 + b.2)) ∧ a.1 ≤ b.1)
      (runSchedule clock units) := by
  refine ((runSchedule_monotone units clock hdur hfree).2).imp ?_
  intro a b hab
  refine ⟨?_, hab.2⟩
  rw [Set.Ico_disjoint_Ico]
  exact le_trans (min_le_left _ _) (le_trans hab.1 (le_max_right _ _))

/-- Witness for `playback_no_overlap`: two tenth-second units arriving at
clock times 0 and 1/5 schedule without overlap. -/
theorem playback_no_overlap_witness :
    List.Pairwise
      (fun a b : ℚ × ℚ =>
        Disjoint (Set.Ico a.1 (a.1 + a.2)) (Set.Ico b.1 (b.1 + b.2)) ∧ a.1 ≤ b.1)
      (runSchedule ⟨0, ∅⟩ [(0, 1/10), (1/5, 1/10)]) :=
  playback_no_overlap ⟨0, ∅⟩ [(0, 1/10), (1/5, 1/10)]
    (by intro u hu; simp at hu; rcases hu with h | h <;> simp [h])
    (by norm_num [driftResetFree, scheduleAudio])

/-- Claim C3: on an interruption signal, every handle in the active set is forcibly
stopped (the stopped set is exactly the prior active set), the active set
becomes empty, and `nextStartTime` is reset to 0 — for every prior clock
state, the empty one included. -/
theorem handleInterruption_spec (clock : PlaybackClock) :
    (handleInterruption clock).2 = clock.active ∧
    (handleInterruption clock).1.active = ∅ ∧
    (handleInterruption clock).1.nextStartTime = 0 :=
  ⟨rfl, rfl, rfl⟩

/-- Claim C8: a failed decode increments only the error log: the session status and
the playback clock are untouched, and processing of every subsequent inbound
unit (status, clock and handle allocation) proceeds exactly as if the failed
unit had never arrived. -/
theorem decode_failure_isolated (st : SchedulerState) (now : ℚ)
    (units : List (ℚ × Option ℚ)) :
    (handleAudioPayload st now none).status = st.status ∧
    (handleAudioPayload st now none).clock = st.clock ∧
    (handleAudioPayload st now none).errorsLogged = st.errorsLogged + 1 ∧
    (processInbound st ((now, none) :: units)).status
        = (processInbound st units).status ∧
    (processInbound st ((now, none) :: units)).clock
        = (processInbound st units).clock ∧
    (processInbound st ((now, none) :: units)).nextNode
        = (processInbound st units).nextNode := by
  have hstep : processInbound st ((now, none) :: units)
      = processInbound (handleAudioPayload st now none) units := rfl
  have h := processInbound_congr units (handleAudioPayload st now none) st
    rfl rfl rfl
  exact ⟨rfl, rfl, rfl, by rw [hstep]; exact h.1, by rw [hstep]; exact h.2.1,
    by rw [hstep]; exact h.2.2⟩

/-- Claim C6: for every incoming text delta — when the most recent message has the
same role (`model`, the only role this handler receives) and its timestamp is
within 2000 ms of the current time, the delta is appended to that message's
text with id and timestamp unchanged; otherwise (also on an empty transcript)
a new message is appended with the given role, the delta's text, and the
current time as id and timestamp; under the invariant the handler itself
maintains (ids record creation times, all roles `model`, the last timestamp
largest) the new id is fresh. -/
theorem transcript_merge_rule (nowMs : ℤ) (text : String) (prev : List Message) :
    (prev.getLast? = none →
      handleTranscription nowMs text prev = [⟨nowMs, Role.model, text, nowMs⟩]) ∧
    ∀ lastMsg, prev.getLast? = some lastMsg →
      ((lastMsg.role = Role.model ∧ nowMs - lastMsg.timestamp < 2000) →
        handleTranscription nowMs text prev
          = prev.dropLast ++ [{ lastMsg with text := lastMsg.text ++ text }]) ∧
      (¬ (lastMsg.role = Role.model ∧ nowMs - lastMsg.timestamp < 2000) →
        handleTranscription nowMs text prev
          = prev ++ [⟨nowMs, Role.model, text, nowMs⟩] ∧
        ((∀ m ∈ prev, m.role = Role.model ∧ m.id = m.timestamp ∧
            m.timestamp ≤ lastMsg.timestamp) →
          ∀ m ∈ prev, m.id ≠ nowMs)) := by
  constructor
  · intro hnone
    have hnil : prev = [] := by
      cases prev with
      | nil => rfl
      | cons a l => simp [List.getLast?_concat] at hnone
    subst hnil
    rfl
  · intro lastMsg hlast
    constructor
    · intro hcond
      simp only [handleTranscription, hlast, if_pos hcond]
    · intro hcond
      refine ⟨by simp only [handleTranscription, hlast, if_neg hcond], ?_⟩
      intro hinv m hm
      have hmem : lastMsg ∈ prev := by
        obtain ⟨hne, heq⟩ := List.mem_getLast?_eq_getLast (Option.mem_def.mpr hlast)
        rw [heq]
        exact List.getLast_mem hne
      have hrole : lastMsg.role = Role.model := (hinv lastMsg hmem).1
      have hlate : ¬ (nowMs - lastMsg.timestamp < 2000) := fun h => hcond ⟨hrole, h⟩
      have h2000 : lastMsg.timestamp + 2000 ≤ nowMs := by linarith [not_lt.mp hlate]
      have hmts : m.timestamp ≤ lastMsg.timestamp := (hinv m hm).2.2
      have hid : m.id = m.timestamp := (hinv m hm).2.1
      intro hEq
      rw [hid] at hEq
      linarith [hEq ▸ hmts]

/-- Witness for `transcript_merge_rule`: a model-role delta arriving 500 ms
after the previous model message merges into it, concatenating the text and
keeping the first timestamp. -/
theorem transcript_merge_rule_witness :
    handleTranscription 500 " there" [⟨0, Role.model, "Hello", 0⟩]
      = [⟨0, Role.model, "Hello there", 0⟩] :=
  ((transcript_merge_rule 500 " there" [⟨0, Role.model, "Hello", 0⟩]).2
    ⟨0, Role.model, "Hello", 0⟩ rfl).1 ⟨rfl, by norm_num⟩

/-- The mutable state of the `App` component: the React state hooks
(`status`, `messages`, `error`, `isMicOn`, `mediaStream` — `true` when live
tracks are held) and the refs (`nextStartTimeRef`, `sourcesRef`,
`frameIntervalRef`, `sessionPromiseRef` — `true` when non-null), together
with what the model needs to observe closures: `capturedMicOn` is the value
of `isMicOn` captured by the `processor.onaudioprocess` closure when
`connectToGemini` installed it (`none` before any connect), `liveTimers` is
the set of `setInterval` handles installed and not yet cleared, and
`nextTimer` allocates fresh handles. -/
structure AppState where
  status : ConnectionStatus
  messages : List Message
  errorMsg : Option String
  isMicOn : Bool
  mediaStream : Bool
  nextStartTime : ℚ
  sources : Finset ℕ
  frameInterval : Option ℕ
  sessionPromise : Bool
  capturedMicOn : Option Bool
  liveTimers : Finset ℕ
  nextTimer : ℕ
deriving DecidableEq

/-- The initial component state, from the `useState`/`useRef` initializers
(`App.tsx` lines 28-40). -/
def initialApp : AppState where
  status := .disconnected
  messages := []
  errorMsg := none
  isMicOn := true
  mediaStream := false
  nextStartTime := 0
  sources := ∅
  frameInterval := none
  sessionPromise := false
  capturedMicOn := none
  liveTimers := ∅
  nextTimer := 0

/-- `startVideoStreaming` (`App.tsx` lines 202-206, 240): clear any previously
installed frame interval, then install a fresh 200 ms interval and record its
handle in `frameIntervalRef`. -/
def startVideoStreaming (st : AppState) : AppState :=
  let cleared := match st.frameInterval with
    | some tid => st.liveTimers.erase tid
    | none => st.liveTimers
  { st with
      frameInterval := some st.nextTimer
      liveTimers := insert st.nextTimer cleared
      nextTimer := st.nextTimer + 1 }

/-- The state effect of a successful `connectToGemini` call
(`App.tsx` lines 55-199): status becomes Connecting, the error banner is
cleared, media tracks are acquired, the session promise is stored, the
`onaudioprocess` handler is installed — capturing the current value of
`isMicOn` in its closure — and video streaming is started. -/
def connectToGemini (st : AppState) : AppState :=
  startVideoStreaming
    { st with
        status := .connecting
        errorMsg := none
        mediaStream := true
        sessionPromise := true
        capturedMicOn := some st.isMicOn }

/-- The `onopen` callback (`App.tsx` lines 83-86): status becomes Connected. -/
def handleOpen (st : AppState) : AppState :=
  { st with status := .connected }

/-- The `onclose` callback (`App.tsx` lines 153-156): status becomes
Disconnected; nothing else is torn down here. -/
def handleClose (st : AppState) : AppState :=
  { st with status := .disconnected }

/-- The mic button (`App.tsx` line 319): `setIsMicOn(!isMicOn)`.  Only the
React state flips; the installed `onaudioprocess` closure is untouched. -/
def toggleMic (st : AppState) : AppState :=
  { st with isMicOn := !st.isMicOn }

/-- `stopEverything` (`App.tsx` lines 243-256): clear the frame interval,
stop every active source node and clear the set, null the session promise
ref, and — when the `mediaStream` value captured by the invoking closure is
non-null — stop the device tracks and null the state.  The user-initiated
path (`disconnect` via `handleToggle`) runs in the current render, so its
captured value is the current `st.mediaStream`. -/
def stopEverything (st : AppState) (capturedStream : Bool) : AppState :=
  let cleared := match st.frameInterval with
    | some tid => st.liveTimers.erase tid
    | none => st.liveTimers
  { st with
      frameInterval := none
      liveTimers := cleared
      sources := ∅
      sessionPromise := false
      mediaStream := if capturedStream then false else st.mediaStream }

/-- `disconnect` (`App.tsx` lines 258-261): `stopEverything()` followed by
`setStatus(DISCONNECTED)`; invoked from the current render, so the captured
`mediaStream` is the current one.  There is no state guard: it is valid from
every state. -/
def disconnect (st : AppState) : AppState :=
  { stopEverything st st.mediaStream with status := .disconnected }

/-- Whether a captured audio block is forwarded to the outbound dispatcher
(`processor.onaudioprocess`, `App.tsx` lines 169-186): the installed handler
tests the `isMicOn` value its closure captured when `connectToGemini` ran and
then sends through the `sessionPromise` local it also captured; it performs
no session-status check.  With no handler installed nothing is sent. -/
def audioBlockForwarded (st : AppState) : Bool :=
  match st.capturedMicOn with
  | some micOn => micOn
  | none => false

/-- `handleTestConnection` (`App.tsx` lines 275-287): if `sessionPromiseRef`
is non-null, send a synthetic text probe; no status change, no other state
effect.  Returns the state (unchanged) and whether the probe was sent. -/
def handleTestConnection (st : AppState) : AppState × Bool :=
  (st, st.sessionPromise)

/-- The Test Connection button is rendered — and hence clickable — only when
`status === ConnectionStatus.CONNECTED` (`App.tsx` lines 325-332). -/
def testButtonRendered (st : AppState) : Bool :=
  st.status == ConnectionStatus.connected

/-- A user click on the Test Connection button: has an effect only when the
button is rendered, in which case it runs `handleTestConnection`. -/
def clickTestConnection (st : AppState) : AppState × Bool :=
  if testButtonRendered st then handleTestConnection st else (st, false)

/-- The user-visible and remote-driven operations of the component that can
touch the timer and lifecycle state. -/
inductive AppOp where
  | connect
  | opened
  | closed
  | mic
  | video
  | stopAll
  | hangUp
  | probe
deriving DecidableEq, Repr

/-- Apply one operation to the component state. -/
def applyOp (st : AppState) : AppOp → AppState
  | .connect => connectToGemini st
  | .opened => handleOpen st
  | .closed => handleClose st
  | .mic => toggleMic st
  | .video => startVideoStreaming st
  | .stopAll => stopEverything st st.mediaStream
  | .hangUp => disconnect st
  | .probe => (clickTestConnection st).1

/-- Coupling invariant for C10: the set of live `setInterval` handles is
exactly the handle stored in `frameIntervalRef`, when present. -/
def TimerInvariant (st : AppState) : Prop :=
  st.liveTimers = match st.frameInterval with
    | some tid => {tid}
    | none => ∅

/-- Auxiliary: `startVideoStreaming` preserves the timer coupling
invariant — the old handle (if any) is cleared before the new one is
installed. -/
lemma timerInvariant_startVideo (st : AppState) (h : TimerInvariant st) :
    TimerInvariant (startVideoStreaming st) := by
  unfold TimerInvariant at h ⊢
  unfold startVideoStreaming
  cases hfi : st.frameInterval with
  | none => simp only [hfi] at h; simp [hfi, h]
  | some tid => simp only [hfi] at h; simp [hfi, h]

/-- Auxiliary: `stopEverything` preserves the timer coupling invariant. -/
lemma timerInvariant_stop (st : AppState) (b : Bool) (h : TimerInvariant st) :
    TimerInvariant (stopEverything st b) := by
  unfold TimerInvariant at h ⊢
  unfold stopEverything
  cases hfi : st.frameInterval with
  | none => simp only [hfi] at h; simp [hfi, h]
  | some tid => simp only [hfi] at h; simp [hfi, h]

/-- Auxiliary: every operation preserves the timer coupling invariant. -/
lemma timerInvariant_step (st : AppState) (op : AppOp)
    (h : TimerInvariant st) : TimerInvariant (applyOp st op) := by
  cases op with
  | connect => exact timerInvariant_startVideo _ h
  | opened => exact h
  | closed => exact h
  | mic => exact h
  | video => exact timerInvariant_startVideo _ h
  | stopAll => exact timerInvariant_stop st st.mediaStream h
  | hangUp => exact timerInvariant_stop st st.mediaStream h
  | probe =>
      cases htb : testButtonRendered st <;>
        simp only [applyOp, clickTestConnection, handleTestConnection, htb] <;>
        simpa using h

/-- Auxiliary: the timer coupling invariant holds along every operation
sequence. -/
lemma timerInvariant_fold (ops : List AppOp) :
    ∀ st : AppState, TimerInvariant st → TimerInvariant (ops.foldl applyOp st) := by
  induction ops with
  | nil => intro st h; exact h
  | cons op rest ih => intro st h; exact ih _ (timerInvariant_step st op h)

/-- Claim C4 fails on the code: connect with the mic on, receive `onopen`, then
turn the mute gate on.  The session is Connected and `isMicOn = false`, yet
the next captured audio block is still forwarded, because the installed
`onaudioprocess` handler tests the `isMicOn` value captured in its closure
when `connectToGemini` ran (`true`), not the current state; the comment
"Only send audio if Mic is On" documents the opposite intent. -/
theorem mute_gate_stale_closure :
    (toggleMic (handleOpen (connectToGemini initialApp))).isMicOn = false ∧
    (toggleMic (handleOpen (connectToGemini initialApp))).status
        = ConnectionStatus.connected ∧
    audioBlockForwarded (toggleMic (handleOpen (connectToGemini initialApp)))
        = true :=
  ⟨rfl, rfl, rfl⟩

/-- Claim C7: `stop()` (`disconnect`) is valid from every state, always transitions
to Disconnected, unconditionally tears down the video timer, the device
tracks, the active playback set and the session reference, and is idempotent:
stop after stop equals stop. -/
theorem stop_spec (st : AppState) :
    (disconnect st).status = ConnectionStatus.disconnected ∧
    (disconnect st).frameInterval = none ∧
    (disconnect st).mediaStream = false ∧
    (disconnect st).sources = ∅ ∧
    (disconnect st).sessionPromise = false ∧
    disconnect (disconnect st) = disconnect st := by
  obtain ⟨s, ms, em, mic, mstr, nst, src, fi, sp, cap, lt, nt⟩ := st
  refine ⟨rfl, rfl, ?_, rfl, rfl, ?_⟩
  · cases mstr <;> rfl
  · cases fi <;> cases mstr <;> rfl

/-- Claim C9: the diagnostic probe leaves the whole component state — in particular
the connection state machine — unchanged in every state in which it runs; it
can fire only when the session status is Connected (the Test Connection
button is rendered only then), and when Connected with a live session it does
inject the synthetic text message. -/
theorem probe_frame_effect (st : AppState) :
    (clickTestConnection st).1 = st ∧
    ((clickTestConnection st).2 = true → st.status = ConnectionStatus.connected) ∧
    (st.status = ConnectionStatus.connected → st.sessionPromise = true →
      (clickTestConnection st).2 = true) := by
  refine ⟨?_, ?_, ?_⟩
  · cases htb : testButtonRendered st <;>
      simp [clickTestConnection, handleTestConnection, htb]
  · intro h
    by_cases hs : st.status = ConnectionStatus.connected
    · exact hs
    · have hb : testButtonRendered st = false := by
        simp [testButtonRendered, hs]
      simp [clickTestConnection, hb] at h
  · intro hs hp
    simp [clickTestConnection, testButtonRendered, handleTestConnection, hs, hp]

/-- Witness for `probe_frame_effect`: in the state reached by a successful
connect and `onopen`, the probe fires. -/
theorem probe_frame_effect_witness :
    (clickTestConnection (handleOpen (connectToGemini initialApp))).2 = true :=
  (probe_frame_effect (handleOpen (connectToGemini initialApp))).2.2 rfl rfl

/-- Claim C10: along every sequence of operations from the initial state, the set
of live video-frame timers has at most one element — `startVideoStreaming`
clears any previously installed interval before installing a new one, and
teardown clears the interval and nulls the handle. -/
theorem video_timer_at_most_one (ops : List AppOp) :
    (ops.foldl applyOp initialApp).liveTimers.card ≤ 1 := by
  have h := timerInvariant_fold ops initialApp rfl
  unfold TimerInvariant at h
  rw [h]
  cases (ops.foldl applyOp initialApp).frameInterval <;> simp

/-- One pending outbound audio send: the block's production index paired with
the time its base64 encoding completes. -/
def insertSend (b : ℕ × ℕ) : List (ℕ × ℕ) → List (ℕ × ℕ)
  | [] => [b]
  | c :: rest => if b.2 < c.2 then b :: c :: rest else c :: insertSend b rest

/-- The outbound audio path (`App.tsx` lines 176-185): each captured block
starts its own independent `blobToBase64(pcmBlob).then(... send ...)` chain;
no queue links the chains.  The runtime fires the completion callbacks in
completion-time order (production order on ties), so the realized send order
is the production sequence rearranged by encode-completion time. -/
def sendSchedule (blocks : List (ℕ × ℕ)) : List (ℕ × ℕ) :=
  blocks.foldl (fun acc b => insertSend b acc) []

/-- The production indices in the order their sends reach the channel. -/
def sendOrder (blocks : List (ℕ × ℕ)) : List ℕ :=
  (sendSchedule blocks).map Prod.fst

/-- Claim C5 fails on the code: blocks 0 and 1 are produced in that order, block
0's encoding completes at t = 10 and block 1's at t = 2, and the channel
receives them in order 1, 0 — the independent per-chunk promise chains give
no per-stream ordering guarantee. -/
theorem audio_send_reorder :
    ([((0 : ℕ), (10 : ℕ)), (1, 2)].map Prod.fst = [0, 1]) ∧
    sendOrder [(0, 10), (1, 2)] = [1, 0] := by
  constructor <;> decide

end GestureBridge
